import Mathlib

/-!
Verification of the coco2yolo converter (src/main.rs) against its
natural-language specification.

Embedding conventions:
- Rust `f64` values are modelled as `ℚ` (exact arithmetic; the spec's
  formulas and round-trip property are stated over exact arithmetic).
- Rust `u32`/`usize` are modelled as `ℕ` (no arithmetic near overflow
  occurs anywhere in the program).
- Fallible code is modelled with `Option`: for the two parse functions a
  `none` result models an index-out-of-bounds panic.  serde-level
  ParseErrors happen before these functions see a typed dataset (they
  operate on the already-deserialized structures), so they are outside
  these definitions.
- `HashMap` iteration order is unspecified in Rust; the model fixes one
  concrete order (an association list where insertion removes the old
  binding and appends).  Theorems about parser output are stated up to
  permutation so they do not depend on the model's fixed order.
- File-system effects (directory creation, image copies, label writes)
  are modelled by the pure data that would be written; the image
  resolver `find_image_file` is abstracted by a predicate saying whether
  a declared name resolves, since its input (the directory tree) is an
  external collaborator.
-/

/-- DAMM format annotation (struct DammAnnotation in main.rs):
`bbox` is a list of coordinate pairs, nominally [[x1, y1], [x2, y2]]. -/
structure DammAnnotation where
  bbox : List (List ℚ)
  category_id : ℕ
  bbox_mode : Option String
  segmentation : Option (List (List ℚ))
  deriving DecidableEq

/-- DAMM format image record (struct DammImage). -/
structure DammImage where
  file_name : String
  height : ℕ
  width : ℕ
  image_id : ℕ
  annotations : List DammAnnotation
  deriving DecidableEq

/-- DAMM format dataset (struct DammDataset). -/
structure DammDataset where
  annotations : List DammImage
  deriving DecidableEq

/-- Standard COCO format annotation (struct CocoAnnotation):
`bbox` is nominally [x, y, width, height]. `segmentation` is an
arbitrary ignored JSON value, modelled opaquely. -/
structure CocoAnnotation where
  id : ℕ
  image_id : ℕ
  category_id : ℕ
  bbox : List ℚ
  area : ℚ
  iscrowd : ℕ
  segmentation : Option Unit
  deriving DecidableEq

/-- Standard COCO format image record (struct CocoImageInfo). -/
structure CocoImageInfo where
  id : ℕ
  file_name : String
  height : ℕ
  width : ℕ
  deriving DecidableEq

/-- Standard COCO format dataset (struct CocoDataset); `categories` is
deserialized but never read, modelled opaquely. -/
structure CocoDataset where
  images : List CocoImageInfo
  annotations : List CocoAnnotation
  categories : Option (List Unit)
  deriving DecidableEq

/-- Unified annotation (struct UnifiedAnnotation): bbox always in
[x1, y1, x2, y2] corner form. -/
structure UnifiedAnnotation where
  bbox : List ℚ
  category_id : ℕ
  deriving DecidableEq

/-- Unified image (struct UnifiedImage). -/
structure UnifiedImage where
  file_name : String
  height : ℕ
  width : ℕ
  annotations : List UnifiedAnnotation
  deriving DecidableEq

/-- YOLO center-form record (struct YoloAnnotation). -/
structure YoloAnnotation where
  class_id : ℕ
  x_center : ℚ
  y_center : ℚ
  width : ℚ
  height : ℚ
  deriving DecidableEq

/-- YoloAnnotation::from_unified.  The source indexes `ann.bbox[0..=3]`;
every call site constructs the bbox as a four-element vector (see the two
parse functions below), so indexing is modelled with `getD`, which agrees
with the source whenever the list has length at least 4. -/
def YoloAnnotation.from_unified (ann : UnifiedAnnotation) (img_width img_height : ℕ) :
    YoloAnnotation :=
  let x1 := ann.bbox.getD 0 0
  let y1 := ann.bbox.getD 1 0
  let x2 := ann.bbox.getD 2 0
  let y2 := ann.bbox.getD 3 0
  let bbox_width := x2 - x1
  let bbox_height := y2 - y1
  { class_id := ann.category_id
    x_center := (x1 + bbox_width / 2) / (img_width : ℚ)
    y_center := (y1 + bbox_height / 2) / (img_height : ℚ)
    width := bbox_width / (img_width : ℚ)
    height := bbox_height / (img_height : ℚ) }

/-- Left-pad a digit string with zeros to width 6 (helper for `fmt6`). -/
def pad6 (s : String) : String :=
  String.mk (List.replicate (6 - s.length) '0') ++ s

/-- Fixed 6-decimal rendering of a rational, modelling Rust's
`format!` with precision 6.  Rounding of exact half-way decimal values
may differ from Rust's (which formats the exact binary f64 value); no
value appearing in the claims is a tie. -/
def fmt6 (q : ℚ) : String :=
  let n : ℤ := ⌊q * 1000000 + 1 / 2⌋
  let m : ℕ := n.natAbs
  (if n < 0 then "-" else "") ++ toString (m / 1000000) ++ "." ++ pad6 (toString (m % 1000000))

/-- YoloAnnotation::to_string: one label-file line. -/
def YoloAnnotation.to_string (y : YoloAnnotation) : String :=
  toString y.class_id ++ " " ++ fmt6 y.x_center ++ " " ++ fmt6 y.y_center ++ " "
    ++ fmt6 y.width ++ " " ++ fmt6 y.height

/-- Abbreviation used to state the coordinate-conversion claims:
`from_unified` applied to a four-element corner-form box. -/
def yoloOf (x1 y1 x2 y2 : ℚ) (cid W H : ℕ) : YoloAnnotation :=
  YoloAnnotation.from_unified { bbox := [x1, y1, x2, y2], category_id := cid } W H

/-- Traverse a list with a fallible element transformer; `none` models a
panic (or propagated failure) somewhere in the Rust for-loop building a
vector. -/
def mapOpt {α β : Type} (f : α → Option β) : List α → Option (List β)
  | [] => some []
  | a :: l =>
    match f a, mapOpt f l with
    | some b, some bs => some (b :: bs)
    | _, _ => none

/-- Body of the inner DAMM loop: reads `bbox[0][0]`, `bbox[0][1]`,
`bbox[1][0]`, `bbox[1][1]`; `none` models the out-of-bounds panic when a
pair (or a coordinate of one of the first two pairs) is missing. -/
def convertDammAnn (a : DammAnnotation) : Option UnifiedAnnotation :=
  match a.bbox[0]?, a.bbox[1]? with
  | some p0, some p1 =>
    match p0[0]?, p0[1]?, p1[0]?, p1[1]? with
    | some x1, some y1, some x2, some y2 =>
      some { bbox := [x1, y1, x2, y2], category_id := a.category_id }
    | _, _, _, _ => none
  | _, _ => none

/-- parse_damm_format (after serde deserialization): one UnifiedImage
per entry of the top-level `annotations` list, in order. -/
def parse_damm_format (d : DammDataset) : Option (List UnifiedImage) :=
  mapOpt
    (fun img =>
      (mapOpt convertDammAnn img.annotations).map
        (fun anns =>
          { file_name := img.file_name, height := img.height, width := img.width,
            annotations := anns }))
    d.annotations

/-- The box extraction the spec describes for a DAMM annotation, written
as a total function (values read positionally from the first two pairs). -/
def dammExpectedAnn (a : DammAnnotation) : UnifiedAnnotation :=
  { bbox := [(a.bbox.getD 0 []).getD 0 0, (a.bbox.getD 0 []).getD 1 0,
             (a.bbox.getD 1 []).getD 0 0, (a.bbox.getD 1 []).getD 1 0]
    category_id := a.category_id }

/-- The unified image the spec predicts for one DAMM image record. -/
def dammExpected (img : DammImage) : UnifiedImage :=
  { file_name := img.file_name, height := img.height, width := img.width,
    annotations := img.annotations.map dammExpectedAnn }

/-- Body of the standard-format annotation conversion: reads
`bbox[0..=3]` and produces [x, y, x + w, y + h]; `none` models the
out-of-bounds panic when the bbox has fewer than four elements. -/
def convertCocoAnn (a : CocoAnnotation) : Option UnifiedAnnotation :=
  match a.bbox[0]?, a.bbox[1]?, a.bbox[2]?, a.bbox[3]? with
  | some x, some y, some w, some h =>
    some { bbox := [x, y, x + w, y + h], category_id := a.category_id }
  | _, _, _, _ => none

/-- The [x, y, w, h] → [x1, y1, x2, y2] conversion the spec describes,
written as a total function. -/
def cocoExpectedAnn (a : CocoAnnotation) : UnifiedAnnotation :=
  { bbox := [a.bbox.getD 0 0, a.bbox.getD 1 0,
             a.bbox.getD 0 0 + a.bbox.getD 2 0, a.bbox.getD 1 0 + a.bbox.getD 3 0]
    category_id := a.category_id }

/-- HashMap::insert on the image-id-keyed map, modelled on an association
list: remove any previous binding for the id, add the new record.  (The
appended position fixes one iteration order; the real map's order is
unspecified, and theorems below are stated up to permutation.) -/
def insertEntry (m : List CocoImageInfo) (v : CocoImageInfo) : List CocoImageInfo :=
  m.filter (fun e => !(e.id == v.id)) ++ [v]

/-- The `image_map` built by parse_standard_format: one record per
distinct image id, later records overwriting earlier ones. -/
def imageMapEntries (images : List CocoImageInfo) : List CocoImageInfo :=
  images.foldl insertEntry []

/-- parse_standard_format (after serde deserialization): iterate the
id-keyed image map; for each image, convert the annotations whose
`image_id` matches (grouping by id preserves the flat list's order, so
the group equals a filter of the annotation list). -/
def parse_standard_format (d : CocoDataset) : Option (List UnifiedImage) :=
  mapOpt
    (fun info =>
      (mapOpt convertCocoAnn (d.annotations.filter (fun a => a.image_id == info.id))).map
        (fun anns =>
          { file_name := info.file_name, height := info.height, width := info.width,
            annotations := anns }))
    (imageMapEntries d.images)

/-- The unified image the spec predicts for an image record of a
standard-format dataset: its declared name and dimensions, plus every
annotation of the flat list referencing its id, converted to corner
form, in order. -/
def standardExpected (d : CocoDataset) (info : CocoImageInfo) : UnifiedImage :=
  { file_name := info.file_name, height := info.height, width := info.width,
    annotations := (d.annotations.filter (fun a => a.image_id == info.id)).map cocoExpectedAnn }

/-- The last record of `images` carrying image id `i`, if any. -/
def lastRecordFor (images : List CocoImageInfo) (i : ℕ) : Option CocoImageInfo :=
  (images.filter (fun e => e.id == i)).getLast?

/-- `(images.len() as f64 * train_split) as usize`: over exact
arithmetic the saturating float-to-usize cast is the natural-number
floor (negative products clamp to 0, exactly as `Nat.floor` does). -/
def trainCount (n : ℕ) (r : ℚ) : ℕ := ⌊(n : ℚ) * r⌋₊

/-- The split induced by `idx < train_count` over the shuffled list:
first `train_count` images are train, the rest are val. -/
def splitImages (images : List UnifiedImage) (r : ℚ) :
    List UnifiedImage × List UnifiedImage :=
  (images.take (trainCount images.length r), images.drop (trainCount images.length r))

/-- Split a character list at every occurrence of `c` (kernel-friendly
model of the path splitting used by `Path` component extraction). -/
def splitOnChar (c : Char) : List Char → List (List Char)
  | [] => [[]]
  | x :: xs =>
    match splitOnChar c xs with
    | [] => [[x]]
    | g :: gs => if x == c then [] :: g :: gs else (x :: g) :: gs

/-- Join character groups with a separator (inverse of `splitOnChar`). -/
def joinChar (c : Char) : List (List Char) → List Char
  | [] => []
  | [g] => g
  | g :: gs => g ++ c :: joinChar c gs

/-- Path::file_name: the last path component of a declared image name.
(Edge cases such as trailing `..` that make the Rust call return None
do not arise in the claims and are not modelled.) -/
def fileNameOf (s : String) : String :=
  String.mk ((splitOnChar '/' s.data).getLastD [])

/-- Path::file_stem on a single component: drop the part after the last
dot (a name without a dot is unchanged; the hidden-file special case of
a leading dot does not arise in the claims). -/
def baseNameNoExt (s : String) : String :=
  let parts := splitOnChar '.' s.data
  if parts.length ≤ 1 then s else String.mk (joinChar '.' parts.dropLast)

/-- `class_names.insert(category_id, format!("class_{}", category_id))`
on the association-list model: the synthesized value depends only on
the key, so re-inserting an existing key leaves the map unchanged. -/
def classInsert (m : List (ℕ × String)) (i : ℕ) : List (ℕ × String) :=
  if m.any (fun e => e.1 == i) then m else m ++ [(i, "class_" ++ toString i)]

/-- One image's contribution to the class map: insert every annotation's
category id, in order. -/
def classInsertAll (m : List (ℕ × String)) (img : UnifiedImage) : List (ℕ × String) :=
  img.annotations.foldl (fun acc a => classInsert acc a.category_id) m

/-- The class map accumulated by the yolo_structure branch: an image's
annotations are visited only when `find_image_file` resolves its file
name (`found` abstracts the resolver over the external directory tree);
unresolved images are skipped entirely. Label writes and image copies
are I/O effects carrying no data into the class index and are elided. -/
def structuredClassMap (images : List UnifiedImage) (found : String → Bool) :
    List (ℕ × String) :=
  images.foldl
    (fun m img => if found (fileNameOf img.file_name) then classInsertAll m img else m) []

/-- The class map accumulated by the flat (legacy) branch: every image's
annotations are visited, with no file resolution. -/
def flatClassMap (images : List UnifiedImage) : List (ℕ × String) :=
  images.foldl classInsertAll []

/-- `sorted_classes`: the class map sorted ascending by category id. -/
def sortedClasses (m : List (ℕ × String)) : List (ℕ × String) :=
  List.insertionSort (fun a b => a.1 ≤ b.1) m

/-- The classes.txt content: written only when the flag is set and at
least one annotation was observed; names joined by newlines with a
trailing newline. -/
def classesContent (createClasses : Bool) (m : List (ℕ × String)) : Option String :=
  if createClasses && !m.isEmpty then
    some (String.intercalate "\n" ((sortedClasses m).map Prod.snd) ++ "\n")
  else none

/-- The distinct-category source for the structured branch: category ids
of annotations belonging to images whose files resolve. -/
def resolvedCategoryIds (images : List UnifiedImage) (found : String → Bool) : List ℕ :=
  (images.filter (fun img => found (fileNameOf img.file_name))).flatMap
    (fun img => img.annotations.map (fun a => a.category_id))

/-- All category ids appearing in a unified image list. -/
def allCategoryIds (images : List UnifiedImage) : List ℕ :=
  images.flatMap (fun img => img.annotations.map (fun a => a.category_id))

/-- One label file's content: converted annotations joined by newlines
with a trailing newline, or the empty string when there are none. -/
def labelContent (img : UnifiedImage) : String :=
  let lines := img.annotations.map
    (fun a => YoloAnnotation.to_string ( YoloAnnotation.from_unified a img.width img.height))
  if lines.isEmpty then "" else String.intercalate "\n" lines ++ "\n"

/-- The flat (legacy) pipeline on one standard-format input: parse, then
write one `<stem>.txt` per image (in order) and the classes.txt content.
Returns the pairs (file name, content) and the optional classes.txt
content; `none` overall models a parse panic. -/
def runFlat (d : CocoDataset) (createClasses : Bool) :
    Option (List (String × String) × Option String) :=
  (parse_standard_format d).map (fun images =>
    (images.map
       (fun img => (baseNameNoExt (fileNameOf img.file_name) ++ ".txt", labelContent img)),
     classesContent createClasses (flatClassMap images)))

/-- Concrete DAMM input whose single image carries one annotation box
with two well-formed pairs. -/
def dammW : DammDataset :=
  ⟨[{ file_name := "a.jpg", height := 10, width := 20, image_id := 1,
      annotations := [{ bbox := [[1, 2], [3, 4]], category_id := 5,
                        bbox_mode := none, segmentation := none }] }]⟩

/-- Concrete DAMM-shaped input with a three-pair box. -/
def exD7 : DammDataset :=
  ⟨[{ file_name := "x.jpg", height := 10, width := 10, image_id := 1,
      annotations := [{ bbox := [[0, 0], [1, 1], [2, 2]], category_id := 5,
                        bbox_mode := none, segmentation := none }] }]⟩

/-- A DAMM annotation with a single coordinate pair (box too short). -/
def dammShortAnn : DammAnnotation :=
  { bbox := [[7, 8]], category_id := 1, bbox_mode := none, segmentation := none }

/-- A DAMM image record carrying `dammShortAnn`. -/
def dammShortImg : DammImage :=
  { file_name := "b.jpg", height := 5, width := 5, image_id := 2,
    annotations := [dammShortAnn] }

/-- A DAMM dataset carrying `dammShortImg`. -/
def dammShort : DammDataset := ⟨[dammShortImg]⟩

/-- Concrete standard-format input whose single annotation has a
two-element bbox (matching field types, list too short). -/
def exC9 : CocoDataset :=
  { images := [⟨1, "a.jpg", 10, 10⟩],
    annotations := [⟨1, 1, 0, [1, 2], 0, 0, none⟩],
    categories := none }

/-- `exC9` with the bbox completed to four elements. -/
def exC9fixed : CocoDataset :=
  { images := [⟨1, "a.jpg", 10, 10⟩],
    annotations := [⟨1, 1, 0, [1, 2, 3, 4], 0, 0, none⟩],
    categories := none }

/-- Concrete standard-format input with distinct ids, one annotated and
one annotation-free image. -/
def dW5 : CocoDataset :=
  { images := [⟨1, "a.jpg", 10, 10⟩, ⟨2, "b.jpg", 20, 20⟩],
    annotations := [⟨1, 1, 2, [0, 0, 5, 5], 25, 0, none⟩],
    categories := none }

/-- Concrete standard-format input in which two image records share
id 1 with different names and dimensions. -/
def dW10 : CocoDataset :=
  { images := [⟨1, "a.jpg", 10, 10⟩, ⟨1, "b.jpg", 20, 30⟩],
    annotations := [⟨1, 1, 4, [0, 0, 5, 5], 25, 0, none⟩],
    categories := none }

/-- The end-to-end example input of the spec: img1.jpg (100×100, one
annotation box [10,10,20,20] of category 3) and img2.jpg (200×200, no
annotations). -/
def exC8 : CocoDataset :=
  { images := [⟨1, "img1.jpg", 100, 100⟩, ⟨2, "img2.jpg", 200, 200⟩],
    annotations := [⟨1, 1, 3, [10, 10, 20, 20], 400, 0, none⟩],
    categories := none }

/-- Annotation-free unified images used to witness the split claim. -/
def imgA : UnifiedImage := ⟨"a.jpg", 1, 1, []⟩

/-- Second split-witness image. -/
def imgB : UnifiedImage := ⟨"b.jpg", 1, 1, []⟩

/-- Third split-witness image. -/
def imgC : UnifiedImage := ⟨"c.jpg", 1, 1, []⟩

/-- A unified image whose file resolves in the C4 scenario. -/
def cImg1 : UnifiedImage := ⟨"img1.jpg", 100, 100, [⟨[0, 0, 1, 1], 1⟩]⟩

/-- A unified image whose file does not resolve in the C4 scenario. -/
def cImg2 : UnifiedImage := ⟨"img2.jpg", 100, 100, [⟨[0, 0, 1, 1], 2⟩]⟩

/-- The two-image collection for the C4 scenario. -/
def cImgs : List UnifiedImage := [cImg1, cImg2]

/-- The resolver outcome for the C4 scenario: only img1.jpg is present
under the input root. -/
def cFound : String → Bool := fun s => s == "img1.jpg"

/-- Well-formedness of the class map: keys are distinct and every entry
carries the synthesized name for its key. -/
def ClassMapOk (m : List (ℕ × String)) : Prop :=
  (m.map Prod.fst).Nodup ∧ ∀ p ∈ m, p.2 = "class_" ++ toString p.1

theorem mapOpt_eq_map {α β : Type} (f : α → Option β) (g : α → β) :
    ∀ l : List α, (∀ a ∈ l, f a = some (g a)) → mapOpt f l = some (l.map g)
  | [], _ => rfl
  | a :: l, h => by
    have ha := h a (List.mem_cons_self a l)
    have hl := mapOpt_eq_map f g l (fun x hx => h x (List.mem_cons_of_mem a hx))
    simp [mapOpt, ha, hl]

theorem mapOpt_eq_none {α β : Type} (f : α → Option β) {a : α} {l : List α}
    (ha : a ∈ l) (hf : f a = none) : mapOpt f l = none := by
  induction l with
  | nil => cases ha
  | cons x l ih =>
    rcases List.mem_cons.mp ha with h | h
    · subst h
      cases hml : mapOpt f l <;> simp [mapOpt, hf, hml]
    · cases hx : f x <;> simp [mapOpt, hx, ih h]

theorem convertDammAnn_eq_of_arity (a : DammAnnotation)
    (h0 : 2 ≤ a.bbox.length)
    (h1 : 2 ≤ (a.bbox.getD 0 []).length)
    (h2 : 2 ≤ (a.bbox.getD 1 []).length) :
    convertDammAnn a = some (dammExpectedAnn a) := by
  rcases hbb : a.bbox with _ | ⟨p0, t⟩
  · rw [hbb] at h0; simp at h0
  rcases t with _ | ⟨p1, t2⟩
  · rw [hbb] at h0; simp at h0
  rw [hbb] at h1 h2
  simp only [List.getD] at h1 h2
  rcases hp0 : p0 with _ | ⟨x1, t3⟩
  · rw [hp0] at h1; simp at h1
  rcases t3 with _ | ⟨y1, t4⟩
  · rw [hp0] at h1; simp at h1
  rcases hp1 : p1 with _ | ⟨x2, t5⟩
  · rw [hp1] at h2; simp at h2
  rcases t5 with _ | ⟨y2, t6⟩
  · rw [hp1] at h2; simp at h2
  subst hp0; subst hp1
  simp [convertDammAnn, dammExpectedAnn, hbb]

theorem convertCocoAnn_eq_of_arity (a : CocoAnnotation) (h : 4 ≤ a.bbox.length) :
    convertCocoAnn a = some (cocoExpectedAnn a) := by
  rcases hbb : a.bbox with _ | ⟨x, t⟩
  · rw [hbb] at h; simp at h
  rcases t with _ | ⟨y, t2⟩
  · rw [hbb] at h; simp at h
  rcases t2 with _ | ⟨w, t3⟩
  · rw [hbb] at h; simp at h
  rcases t3 with _ | ⟨v, t4⟩
  · rw [hbb] at h; simp at h
  simp [convertCocoAnn, cocoExpectedAnn, hbb]

/-- Claim C6: for every valid DAMM-schema input (each box exactly two
pairs of exactly two coordinates), `parse_damm_format` returns one
UnifiedImage per entry of the top-level `annotations` list, in the same
relative order, with each box taken positionally from the two pairs and
nested annotation order preserved. -/
theorem parse_damm_format_correct (d : DammDataset)
    (hvalid : ∀ img ∈ d.annotations, ∀ a ∈ img.annotations,
      a.bbox.length = 2 ∧ (a.bbox.getD 0 []).length = 2 ∧ (a.bbox.getD 1 []).length = 2) :
    parse_damm_format d = some (d.annotations.map dammExpected) ∧
    (d.annotations.map dammExpected).length = d.annotations.length := by
  refine ⟨?_, List.length_map _ _⟩
  apply mapOpt_eq_map
  intro img himg
  have hanns : mapOpt convertDammAnn img.annotations =
      some (img.annotations.map dammExpectedAnn) := by
    apply mapOpt_eq_map
    intro a ha
    obtain ⟨h0, h1, h2⟩ := hvalid img himg a ha
    exact convertDammAnn_eq_of_arity a (le_of_eq h0.symm) (le_of_eq h1.symm) (le_of_eq h2.symm)
  simp [hanns, dammExpected]

/-- Witness for C6: the concrete dataset `dammW` satisfies the validity
hypothesis and parses to one image in order. -/
theorem parse_damm_format_correct_witness :
    parse_damm_format dammW = some (dammW.annotations.map dammExpected) ∧
    (dammW.annotations.map dammExpected).length = dammW.annotations.length :=
  parse_damm_format_correct dammW (by decide)

/-- Counterexample to claim C7 as stated: `exD7` is a DAMM-shaped input
in which a box does not contain exactly two coordinate pairs (it has
three), yet `parse_damm_format` succeeds (the extra pair is ignored)
instead of failing with a ParseError. -/
theorem parse_damm_extra_pair_counterexample :
    (∃ img ∈ exD7.annotations, ∃ a ∈ img.annotations, a.bbox.length ≠ 2) ∧
    parse_damm_format exD7 =
      some [{ file_name := "x.jpg", height := 10, width := 10,
              annotations := [{ bbox := [0, 0, 1, 1], category_id := 5 }] }] := by
  decide

/-- Claim C7 (amended): a DAMM-shaped input whose boxes all have at
least two pairs, each with at least two coordinates, parses
successfully (extra pairs and coordinates are ignored); an input with
some box of fewer than two pairs faults (out-of-bounds panic, modelled
as `none`) rather than returning a ParseError value. -/
theorem parse_damm_box_arity (d : DammDataset) :
    ((∀ img ∈ d.annotations, ∀ a ∈ img.annotations,
        2 ≤ a.bbox.length ∧ 2 ≤ (a.bbox.getD 0 []).length ∧ 2 ≤ (a.bbox.getD 1 []).length) →
      parse_damm_format d = some (d.annotations.map dammExpected)) ∧
    (∀ img ∈ d.annotations, ∀ a ∈ img.annotations, a.bbox.length < 2 →
      parse_damm_format d = none) := by
  constructor
  · intro h
    apply mapOpt_eq_map
    intro img himg
    have hanns : mapOpt convertDammAnn img.annotations =
        some (img.annotations.map dammExpectedAnn) := by
      apply mapOpt_eq_map
      intro a ha
      obtain ⟨h0, h1, h2⟩ := h img himg a ha
      exact convertDammAnn_eq_of_arity a h0 h1 h2
    simp [hanns, dammExpected]
  · intro img himg a ha hlen
    have hnone : convertDammAnn a = none := by
      rcases hbb : a.bbox with _ | ⟨p0, t⟩
      · simp [convertDammAnn, hbb]
      rcases t with _ | ⟨p1, t2⟩
      · simp [convertDammAnn, hbb]
      rw [hbb] at hlen
      simp only [List.length_cons] at hlen
      omega
    have hinner : mapOpt convertDammAnn img.annotations = none :=
      mapOpt_eq_none _ ha hnone
    apply mapOpt_eq_none _ himg
    simp [hinner]

/-- Witness for the amended C7: `dammW` (well-formed boxes) parses
successfully, and `dammShort` (a one-pair box) faults. -/
theorem parse_damm_box_arity_witness :
    parse_damm_format dammW = some (dammW.annotations.map dammExpected) ∧
    parse_damm_format dammShort = none :=
  ⟨(parse_damm_box_arity dammW).1 (by decide),
   (parse_damm_box_arity dammShort).2 dammShortImg (by decide) dammShortAnn (by decide)
     (by decide)⟩

/-- Claim C9: on a shape-valid standard input whose annotation bbox has
fewer than four elements, the unguarded indexing `bbox[0..=3]` faults
(out-of-bounds panic, modelled as `none`) instead of returning an error
value; the same input with a four-element bbox parses successfully. -/
theorem parse_standard_short_bbox_fault :
    (∃ a ∈ exC9.annotations, a.bbox.length < 4) ∧
    parse_standard_format exC9 = none ∧
    parse_standard_format exC9fixed =
      some [{ file_name := "a.jpg", height := 10, width := 10,
              annotations := [{ bbox := [1, 2, 4, 6], category_id := 0 }] }] := by
  refine ⟨by decide, by decide, ?_⟩
  simp only [parse_standard_format, exC9fixed, imageMapEntries, insertEntry, mapOpt,
    convertCocoAnn, List.foldl, List.filter, List.getElem?_cons_zero, List.getElem?_cons_succ]
  norm_num

/-- Claim C1: for a unified annotation with corner-form box
(x1, y1, x2, y2) and image dimensions W, H, `YoloAnnotation.from_unified`
returns exactly w = x2 - x1, h = y2 - y1, x_center = (x1 + w/2) / W,
y_center = (y1 + h/2) / H, norm_w = w / W, norm_h = h / H, and
class_id = category_id unmapped. -/
theorem from_unified_formula (x1 y1 x2 y2 : ℚ) (cid W H : ℕ) :
    yoloOf x1 y1 x2 y2 cid W H =
      { class_id := cid
        x_center := (x1 + (x2 - x1) / 2) / (W : ℚ)
        y_center := (y1 + (y2 - y1) / 2) / (H : ℚ)
        width := (x2 - x1) / (W : ℚ)
        height := (y2 - y1) / (H : ℚ) } := rfl

/-- Claim C2: converting a corner-form box to center form and applying
the inverse mapping x1 = (x_center - width/2)·W etc. reproduces the
original four corners exactly (over exact arithmetic), for positive
dimensions. -/
theorem yolo_round_trip (x1 y1 x2 y2 : ℚ) (cid W H : ℕ) (hW : 0 < W) (hH : 0 < H) :
    ((yoloOf x1 y1 x2 y2 cid W H).x_center - (yoloOf x1 y1 x2 y2 cid W H).width / 2) * W = x1 ∧
    ((yoloOf x1 y1 x2 y2 cid W H).y_center - (yoloOf x1 y1 x2 y2 cid W H).height / 2) * H = y1 ∧
    ((yoloOf x1 y1 x2 y2 cid W H).x_center + (yoloOf x1 y1 x2 y2 cid W H).width / 2) * W = x2 ∧
    ((yoloOf x1 y1 x2 y2 cid W H).y_center + (yoloOf x1 y1 x2 y2 cid W H).height / 2) * H = y2 := by
  have hW' : (W : ℚ) ≠ 0 := Nat.cast_ne_zero.mpr hW.ne'
  have hH' : (H : ℚ) ≠ 0 := Nat.cast_ne_zero.mpr hH.ne'
  simp only [yoloOf, YoloAnnotation.from_unified]
  refine ⟨?_, ?_, ?_, ?_⟩ <;> (field_simp; ring)

/-- Witness for C2 at a concrete input: box (1, 2, 3, 4) in a 10×20
image round-trips exactly. -/
theorem yolo_round_trip_witness :
    0 < 10 ∧ 0 < 20 ∧
    (((yoloOf 1 2 3 4 7 10 20).x_center - (yoloOf 1 2 3 4 7 10 20).width / 2) * 10 = 1 ∧
     ((yoloOf 1 2 3 4 7 10 20).y_center - (yoloOf 1 2 3 4 7 10 20).height / 2) * 20 = 2 ∧
     ((yoloOf 1 2 3 4 7 10 20).x_center + (yoloOf 1 2 3 4 7 10 20).width / 2) * 10 = 3 ∧
     ((yoloOf 1 2 3 4 7 10 20).y_center + (yoloOf 1 2 3 4 7 10 20).height / 2) * 20 = 4) :=
  ⟨by decide, by decide, yolo_round_trip 1 2 3 4 7 10 20 (by decide) (by decide)⟩

theorem insertEntry_eq_append (m : List CocoImageInfo) (v : CocoImageInfo)
    (h : ∀ e ∈ m, e.id ≠ v.id) : insertEntry m v = m ++ [v] := by
  unfold insertEntry
  rw [List.filter_eq_self.mpr]
  intro e he
  simp only [Bool.not_eq_true', beq_eq_false_iff_ne, ne_eq]
  exact h e he

theorem foldl_insertEntry_of_fresh :
    ∀ (l m : List CocoImageInfo),
      (∀ e ∈ m, ∀ v ∈ l, e.id ≠ v.id) → ((l.map fun e => e.id).Nodup) →
      l.foldl insertEntry m = m ++ l
  | [], m, _, _ => by simp
  | v :: l, m, hfresh, hnodup => by
    rw [List.map_cons] at hnodup
    have hpair := List.nodup_cons.mp hnodup
    have h1 : insertEntry m v = m ++ [v] :=
      insertEntry_eq_append m v (fun e he => hfresh e he v (List.mem_cons_self v l))
    have hfresh' : ∀ e ∈ m ++ [v], ∀ w ∈ l, e.id ≠ w.id := by
      intro e he w hw
      rcases List.mem_append.mp he with h | h
      · exact hfresh e h w (List.mem_cons_of_mem v hw)
      · have hev : e = v := by simpa using h
        subst hev
        intro hcontra
        exact hpair.1 (hcontra ▸ List.mem_map_of_mem _ hw)
    rw [List.foldl_cons, h1, foldl_insertEntry_of_fresh l (m ++ [v]) hfresh' hpair.2]
    simp

theorem imageMapEntries_of_nodup (images : List CocoImageInfo)
    (h : (images.map fun e => e.id).Nodup) : imageMapEntries images = images := by
  have hbase : ∀ e ∈ ([] : List CocoImageInfo), ∀ v ∈ images, e.id ≠ v.id := by
    intro e he; cases he
  simpa [imageMapEntries] using foldl_insertEntry_of_fresh images [] hbase h

theorem filter_insertEntry_ne (m : List CocoImageInfo) (v : CocoImageInfo) (i : ℕ)
    (hvi : v.id ≠ i) :
    (insertEntry m v).filter (fun e => e.id == i) = m.filter (fun e => e.id == i) := by
  unfold insertEntry
  rw [List.filter_append, List.filter_filter]
  have h1 : [v].filter (fun e => e.id == i) = [] := by
    simp [beq_eq_false_iff_ne, hvi]
  rw [h1, List.append_nil]
  apply List.filter_congr
  intro e _
  by_cases he : e.id = i
  · have h2 : (e.id == i) = true := by simp [he]
    have h3 : (e.id == v.id) = false := by
      simp only [beq_eq_false_iff_ne, ne_eq]
      rw [he]
      exact fun hh => hvi hh.symm
    simp [h2, h3]
  · have h2 : (e.id == i) = false := by simp [he]
    simp [h2]

theorem filter_insertEntry_eq (m : List CocoImageInfo) (v : CocoImageInfo) (i : ℕ)
    (hvi : v.id = i) :
    (insertEntry m v).filter (fun e => e.id == i) = [v] := by
  unfold insertEntry
  rw [List.filter_append, List.filter_filter]
  have h1 : (m.filter fun e => (e.id == i) && !(e.id == v.id)) = [] := by
    rw [List.filter_eq_nil_iff]
    intro e _
    by_cases he : e.id = i
    · simp [he, hvi]
    · simp [he]
  rw [h1]
  simp [hvi]

theorem foldl_insertEntry_filter_nil (i : ℕ) :
    ∀ (l m : List CocoImageInfo),
      l.filter (fun e => e.id == i) = [] →
      (l.foldl insertEntry m).filter (fun e => e.id == i) = m.filter (fun e => e.id == i)
  | [], m, _ => rfl
  | v :: l, m, h => by
    rw [List.filter_cons] at h
    by_cases hv : (v.id == i) = true
    · rw [if_pos hv] at h
      cases h
    · rw [if_neg hv] at h
      rw [List.foldl_cons, foldl_insertEntry_filter_nil i l (insertEntry m v) h,
        filter_insertEntry_ne m v i]
      simpa using hv

theorem foldl_insertEntry_filter_last (i : ℕ) (w : CocoImageInfo) :
    ∀ (l m : List CocoImageInfo),
      (l.filter (fun e => e.id == i)).getLast? = some w →
      (l.foldl insertEntry m).filter (fun e => e.id == i) = [w]
  | [], _, h => by simp at h
  | v :: l, m, h => by
    rw [List.foldl_cons]
    by_cases hfl : l.filter (fun e => e.id == i) = []
    · rw [List.filter_cons] at h
      by_cases hv : (v.id == i) = true
      · rw [if_pos hv, hfl] at h
        simp only [List.getLast?_singleton, Option.some.injEq] at h
        rw [foldl_insertEntry_filter_nil i l (insertEntry m v) hfl, ← h]
        exact filter_insertEntry_eq m v i (by simpa using hv)
      · rw [if_neg hv, hfl] at h
        simp at h
    · have h' : (l.filter (fun e => e.id == i)).getLast? = some w := by
        rw [List.filter_cons] at h
        by_cases hv : (v.id == i) = true
        · rw [if_pos hv] at h
          rcases hfl2 : l.filter (fun e => e.id == i) with _ | ⟨y, ys⟩
          · exact absurd hfl2 hfl
          · rw [hfl2] at h
            rwa [List.getLast?_cons_cons, ← hfl2] at h
        · rwa [if_neg hv] at h
      exact foldl_insertEntry_filter_last i w l (insertEntry m v) h'

theorem imageMapEntries_filter_last (images : List CocoImageInfo) (i : ℕ)
    (w : CocoImageInfo) (h : lastRecordFor images i = some w) :
    (imageMapEntries images).filter (fun e => e.id == i) = [w] :=
  foldl_insertEntry_filter_last i w images [] h

theorem imageMapEntries_filter_nil (images : List CocoImageInfo) (i : ℕ)
    (h : images.filter (fun e => e.id == i) = []) :
    (imageMapEntries images).filter (fun e => e.id == i) = [] := by
  rw [imageMapEntries, foldl_insertEntry_filter_nil i images [] h]
  rfl

theorem mem_imageMapEntries (images : List CocoImageInfo) (u : CocoImageInfo) :
    u ∈ imageMapEntries images ↔ lastRecordFor images u.id = some u := by
  constructor
  · intro hu
    have humem : u ∈ (imageMapEntries images).filter (fun e => e.id == u.id) :=
      List.mem_filter.mpr ⟨hu, by simp⟩
    cases hlast : lastRecordFor images u.id with
    | none =>
      have hnil : images.filter (fun e => e.id == u.id) = [] :=
        List.getLast?_eq_none_iff.mp hlast
      rw [imageMapEntries_filter_nil images u.id hnil] at humem
      cases humem
    | some w =>
      rw [imageMapEntries_filter_last images u.id w hlast] at humem
      have huw : u = w := by simpa using humem
      rw [huw]
  · intro h
    have hfil := imageMapEntries_filter_last images u.id u h
    have : u ∈ (imageMapEntries images).filter (fun e => e.id == u.id) := by
      rw [hfil]
      exact List.mem_singleton.mpr rfl
    exact (List.mem_filter.mp this).1

theorem mem_keys_insertEntry (m : List CocoImageInfo) (v : CocoImageInfo) (i : ℕ) :
    (i ∈ (insertEntry m v).map fun e => e.id) ↔
      i = v.id ∨ (i ∈ m.map fun e => e.id) := by
  unfold insertEntry
  rw [List.map_append, List.mem_append]
  constructor
  · rintro (h | h)
    · right
      obtain ⟨e, he, rfl⟩ := List.mem_map.mp h
      exact List.mem_map.mpr ⟨e, (List.mem_filter.mp he).1, rfl⟩
    · left
      simpa using h
  · rintro (rfl | h)
    · right; simp
    · by_cases hiv : i = v.id
      · right; simpa using hiv
      · left
        obtain ⟨e, he, rfl⟩ := List.mem_map.mp h
        refine List.mem_map.mpr ⟨e, List.mem_filter.mpr ⟨he, ?_⟩, rfl⟩
        simp only [Bool.not_eq_true', beq_eq_false_iff_ne, ne_eq]
        exact hiv

theorem nodup_keys_insertEntry (m : List CocoImageInfo) (v : CocoImageInfo)
    (h : (m.map fun e => e.id).Nodup) :
    ((insertEntry m v).map fun e => e.id).Nodup := by
  unfold insertEntry
  rw [List.map_append]
  refine List.nodup_append.mpr ⟨?_, by simp, ?_⟩
  · exact ((List.filter_sublist m).map fun e => e.id).nodup h
  · intro x hx hx'
    obtain ⟨e, he, rfl⟩ := List.mem_map.mp hx
    have hne : (e.id == v.id) = false := by
      have := (List.mem_filter.mp he).2
      simpa using this
    have : e.id = v.id := by simpa using hx'
    rw [this] at hne
    simp at hne

theorem nodup_keys_foldl :
    ∀ (l m : List CocoImageInfo), ((m.map fun e => e.id).Nodup) →
      (((l.foldl insertEntry m).map fun e => e.id).Nodup)
  | [], _, h => h
  | v :: l, m, h => nodup_keys_foldl l (insertEntry m v) (nodup_keys_insertEntry m v h)

theorem nodup_keys_imageMapEntries (images : List CocoImageInfo) :
    ((imageMapEntries images).map fun e => e.id).Nodup :=
  nodup_keys_foldl images [] List.nodup_nil

theorem mem_keys_foldl (i : ℕ) :
    ∀ (l m : List CocoImageInfo),
      ((i ∈ (l.foldl insertEntry m).map fun e => e.id) ↔
        (i ∈ m.map fun e => e.id) ∨ (i ∈ l.map fun e => e.id))
  | [], m => by simp
  | v :: l, m => by
    rw [List.foldl_cons, mem_keys_foldl i l (insertEntry m v)]
    rw [mem_keys_insertEntry m v i]
    simp only [List.map_cons, List.mem_cons]
    tauto

theorem mem_keys_imageMapEntries (images : List CocoImageInfo) (i : ℕ) :
    (i ∈ (imageMapEntries images).map fun e => e.id) ↔ i ∈ images.map fun e => e.id := by
  rw [imageMapEntries, mem_keys_foldl i images []]
  simp

theorem length_imageMapEntries (images : List CocoImageInfo) :
    (imageMapEntries images).length = ((images.map fun e => e.id).dedup).length := by
  have h1 : (imageMapEntries images).length =
      ((imageMapEntries images).map fun e => e.id).length := (List.length_map _ _).symm
  have h2 : ((imageMapEntries images).map fun e => e.id).toFinset =
      (images.map fun e => e.id).toFinset := by
    ext j
    simp only [List.mem_toFinset]
    exact mem_keys_imageMapEntries images j
  rw [h1, ← List.toFinset_card_of_nodup (nodup_keys_imageMapEntries images), h2,
    List.card_toFinset]

theorem parse_standard_format_eq (d : CocoDataset)
    (harity : ∀ a ∈ d.annotations, 4 ≤ a.bbox.length) :
    parse_standard_format d =
      some ((imageMapEntries d.images).map (standardExpected d)) := by
  apply mapOpt_eq_map
  intro info _
  have hanns : mapOpt convertCocoAnn (d.annotations.filter fun a => a.image_id == info.id) =
      some ((d.annotations.filter fun a => a.image_id == info.id).map cocoExpectedAnn) := by
    apply mapOpt_eq_map
    intro a ha
    exact convertCocoAnn_eq_of_arity a (harity a (List.mem_of_mem_filter ha))
  simp [hanns, standardExpected]

/-- Claim C5: for every valid standard-schema input (distinct image ids,
four-element boxes), `parse_standard_format` produces exactly one
UnifiedImage per image id of the `images` list, whose annotation list is
the (possibly empty) list of annotations referencing that id, each box
converted by x1 = x, y1 = y, x2 = x + w, y2 = y + h; an image with no
matching annotations is kept with an empty list, not omitted. -/
theorem parse_standard_format_correct (d : CocoDataset)
    (hnodup : (d.images.map fun e => e.id).Nodup)
    (harity : ∀ a ∈ d.annotations, 4 ≤ a.bbox.length) :
    ∃ out, parse_standard_format d = some out ∧
      out.Perm (d.images.map (standardExpected d)) := by
  refine ⟨_, parse_standard_format_eq d harity, ?_⟩
  rw [imageMapEntries_of_nodup d.images hnodup]

/-- Witness for C5: a concrete two-image dataset (one image annotated,
one without annotations) parses to the predicted output. -/
theorem parse_standard_format_correct_witness :
    ((dW5.images.map fun e => e.id).Nodup) ∧
    (∀ a ∈ dW5.annotations, 4 ≤ a.bbox.length) ∧
    ∃ out, parse_standard_format dW5 = some out ∧
      out.Perm (dW5.images.map (standardExpected dW5)) :=
  ⟨by decide, by decide, parse_standard_format_correct dW5 (by decide) (by decide)⟩

/-- Claim C10: when image records share an id, `parse_standard_format`
produces one UnifiedImage per distinct id; the record for an id carries
the file name and dimensions of the last record with that id in list
order (later map insertions overwrite earlier ones), with every
annotation referencing the id attached. -/
theorem parse_standard_duplicate_ids (d : CocoDataset)
    (harity : ∀ a ∈ d.annotations, 4 ≤ a.bbox.length)
    (i : ℕ) (_hdup : 2 ≤ (d.images.filter fun e => e.id == i).length) :
    ∃ out, parse_standard_format d = some out ∧
      out.length = ((d.images.map fun e => e.id).dedup).length ∧
      (∀ info : CocoImageInfo, lastRecordFor d.images info.id = some info →
        standardExpected d info ∈ out) ∧
      (∀ u ∈ out, ∃ info : CocoImageInfo,
        lastRecordFor d.images info.id = some info ∧ u = standardExpected d info) := by
  refine ⟨_, parse_standard_format_eq d harity, ?_, ?_, ?_⟩
  · rw [List.length_map]
    exact length_imageMapEntries d.images
  · intro info hinfo
    exact List.mem_map_of_mem _ ((mem_imageMapEntries d.images info).mpr hinfo)
  · intro u hu
    obtain ⟨info, hmem, rfl⟩ := List.mem_map.mp hu
    exact ⟨info, (mem_imageMapEntries d.images info).mp hmem, rfl⟩

/-- Witness for C10: a concrete dataset with two records of id 1; the
second record ("b.jpg", 20×30) wins, with the annotation attached. -/
theorem parse_standard_duplicate_ids_witness :
    (∀ a ∈ dW10.annotations, 4 ≤ a.bbox.length) ∧
    2 ≤ (dW10.images.filter fun e => e.id == 1).length ∧
    ∃ out, parse_standard_format dW10 = some out ∧
      out.length = ((dW10.images.map fun e => e.id).dedup).length ∧
      (∀ info : CocoImageInfo, lastRecordFor dW10.images info.id = some info →
        standardExpected dW10 info ∈ out) ∧
      (∀ u ∈ out, ∃ info : CocoImageInfo,
        lastRecordFor dW10.images info.id = some info ∧ u = standardExpected dW10 info) :=
  ⟨by decide, by decide, parse_standard_duplicate_ids dW10 (by decide) 1 (by decide)⟩

/-- Claim C3: for every image list and ratio in [0, 1], the partition
produced after an arbitrary shuffle (any permutation of the input, as
produced by Fisher-Yates) satisfies: the train part has exactly
floor(len · ratio) images, train and val lengths sum to the input
length, and train ++ val is a permutation of the input (no duplication,
no loss). -/
theorem split_partitions (all shuffled : List UnifiedImage) (r : ℚ)
    (hperm : shuffled.Perm all) (_h0 : 0 ≤ r) (h1 : r ≤ 1) :
    (splitImages shuffled r).1.length = ⌊(all.length : ℚ) * r⌋₊ ∧
    (splitImages shuffled r).1.length + (splitImages shuffled r).2.length = all.length ∧
    ((splitImages shuffled r).1 ++ (splitImages shuffled r).2).Perm all := by
  have hlen : shuffled.length = all.length := hperm.length_eq
  have htc : trainCount shuffled.length r ≤ shuffled.length := by
    unfold trainCount
    calc ⌊(shuffled.length : ℚ) * r⌋₊ ≤ ⌊(shuffled.length : ℚ) * 1⌋₊ :=
          Nat.floor_le_floor (mul_le_mul_of_nonneg_left h1 (by positivity))
      _ = shuffled.length := by simp
  refine ⟨?_, ?_, ?_⟩
  · simp only [splitImages, List.length_take]
    rw [min_eq_left htc, trainCount, hlen]
  · simp only [splitImages, List.length_take, List.length_drop]
    rw [min_eq_left htc]
    omega
  · simp only [splitImages, List.take_append_drop]
    exact hperm

/-- Witness for C3: shuffling three concrete images and splitting at
ratio 1/2 gives a 1-2 partition that is a permutation of the input. -/
theorem split_partitions_witness :
    [imgB, imgA, imgC].Perm [imgA, imgB, imgC] ∧ (0 : ℚ) ≤ 1 / 2 ∧ (1 / 2 : ℚ) ≤ 1 ∧
    ((splitImages [imgB, imgA, imgC] (1 / 2)).1.length =
        ⌊(([imgA, imgB, imgC].length : ℕ) : ℚ) * (1 / 2)⌋₊ ∧
      (splitImages [imgB, imgA, imgC] (1 / 2)).1.length +
          (splitImages [imgB, imgA, imgC] (1 / 2)).2.length = [imgA, imgB, imgC].length ∧
      ((splitImages [imgB, imgA, imgC] (1 / 2)).1 ++
          (splitImages [imgB, imgA, imgC] (1 / 2)).2).Perm [imgA, imgB, imgC]) :=
  ⟨by decide, by norm_num, by norm_num,
   split_partitions [imgA, imgB, imgC] [imgB, imgA, imgC] (1 / 2) (by decide)
     (by norm_num) (by norm_num)⟩

theorem keys_classInsert (m : List (ℕ × String)) (i : ℕ) :
    (classInsert m i).map Prod.fst =
      if i ∈ m.map Prod.fst then m.map Prod.fst else m.map Prod.fst ++ [i] := by
  have hany : (m.any fun e => e.1 == i) = true ↔ i ∈ m.map Prod.fst := by
    rw [List.any_eq_true]
    constructor
    · rintro ⟨e, he, heq⟩
      exact List.mem_map.mpr ⟨e, he, by simpa using heq⟩
    · intro h
      obtain ⟨e, he, hh⟩ := List.mem_map.mp h
      exact ⟨e, he, by simp [hh]⟩
  unfold classInsert
  by_cases hmem : i ∈ m.map Prod.fst
  · rw [if_pos (hany.mpr hmem), if_pos hmem]
  · rw [if_neg (fun hc => hmem (hany.mp hc)), if_neg hmem, List.map_append]
    simp

theorem classMapOk_classInsert (m : List (ℕ × String)) (i : ℕ) (h : ClassMapOk m) :
    ClassMapOk (classInsert m i) := by
  obtain ⟨hnodup, hnames⟩ := h
  constructor
  · rw [keys_classInsert]
    by_cases hmem : i ∈ m.map Prod.fst
    · rwa [if_pos hmem]
    · rw [if_neg hmem]
      refine List.nodup_append.mpr ⟨hnodup, by simp, ?_⟩
      intro x hx hx'
      have : x = i := by simpa using hx'
      exact hmem (this ▸ hx)
  · intro p hp
    unfold classInsert at hp
    by_cases hc : (m.any fun e => e.1 == i) = true
    · rw [if_pos hc] at hp
      exact hnames p hp
    · rw [if_neg hc] at hp
      rcases List.mem_append.mp hp with h | h
      · exact hnames p h
      · have : p = (i, "class_" ++ toString i) := by simpa using h
        rw [this]

theorem mem_keys_classInsert (m : List (ℕ × String)) (i j : ℕ) :
    (j ∈ (classInsert m i).map Prod.fst) ↔ j ∈ m.map Prod.fst ∨ j = i := by
  rw [keys_classInsert]
  by_cases hmem : i ∈ m.map Prod.fst
  · rw [if_pos hmem]
    constructor
    · exact Or.inl
    · rintro (h | h)
      · exact h
      · exact h ▸ hmem
  · rw [if_neg hmem, List.mem_append]
    simp

theorem classMapOk_classInsertAll :
    ∀ (anns : List UnifiedAnnotation) (m : List (ℕ × String)), ClassMapOk m →
      ClassMapOk (anns.foldl (fun acc a => classInsert acc a.category_id) m)
  | [], _, h => h
  | a :: anns, m, h =>
    classMapOk_classInsertAll anns (classInsert m a.category_id)
      (classMapOk_classInsert m a.category_id h)

theorem mem_keys_classInsertAll :
    ∀ (anns : List UnifiedAnnotation) (m : List (ℕ × String)) (j : ℕ),
      ((j ∈ (anns.foldl (fun acc a => classInsert acc a.category_id) m).map Prod.fst) ↔
        j ∈ m.map Prod.fst ∨ j ∈ anns.map (fun a => a.category_id))
  | [], m, j => by simp
  | a :: anns, m, j => by
    rw [List.foldl_cons, mem_keys_classInsertAll anns (classInsert m a.category_id) j,
      mem_keys_classInsert m a.category_id j]
    simp only [List.map_cons, List.mem_cons]
    tauto

theorem classMapOk_structured_fold (found : String → Bool) :
    ∀ (images : List UnifiedImage) (m : List (ℕ × String)), ClassMapOk m →
      ClassMapOk (images.foldl
        (fun m img => if found (fileNameOf img.file_name) then classInsertAll m img else m) m)
  | [], _, h => h
  | img :: images, m, h => by
    rw [List.foldl_cons]
    by_cases hf : found (fileNameOf img.file_name) = true
    · rw [if_pos hf]
      exact classMapOk_structured_fold found images _ (classMapOk_classInsertAll _ m h)
    · rw [if_neg hf]
      exact classMapOk_structured_fold found images m h

theorem resolvedCategoryIds_cons_pos (found : String → Bool) (img : UnifiedImage)
    (images : List UnifiedImage) (hf : found (fileNameOf img.file_name) = true) :
    resolvedCategoryIds (img :: images) found =
      img.annotations.map (fun a => a.category_id) ++ resolvedCategoryIds images found := by
  unfold resolvedCategoryIds
  rw [List.filter_cons, if_pos hf, List.flatMap_cons]

theorem resolvedCategoryIds_cons_neg (found : String → Bool) (img : UnifiedImage)
    (images : List UnifiedImage) (hf : ¬ found (fileNameOf img.file_name) = true) :
    resolvedCategoryIds (img :: images) found = resolvedCategoryIds images found := by
  unfold resolvedCategoryIds
  rw [List.filter_cons, if_neg hf]

theorem mem_keys_structured_fold (found : String → Bool) (j : ℕ) :
    ∀ (images : List UnifiedImage) (m : List (ℕ × String)),
      ((j ∈ (images.foldl
          (fun m img => if found (fileNameOf img.file_name) then classInsertAll m img else m)
          m).map Prod.fst) ↔
        j ∈ m.map Prod.fst ∨ j ∈ resolvedCategoryIds images found)
  | [], m => by simp [resolvedCategoryIds]
  | img :: images, m => by
    rw [List.foldl_cons]
    by_cases hf : found (fileNameOf img.file_name) = true
    · rw [if_pos hf, mem_keys_structured_fold found j images (classInsertAll m img),
        resolvedCategoryIds_cons_pos found img images hf]
      have h2 := mem_keys_classInsertAll img.annotations m j
      unfold classInsertAll
      rw [h2, List.mem_append]
      tauto
    · rw [if_neg hf, mem_keys_structured_fold found j images m,
        resolvedCategoryIds_cons_neg found img images hf]

theorem classMapOk_structuredClassMap (images : List UnifiedImage) (found : String → Bool) :
    ClassMapOk (structuredClassMap images found) :=
  classMapOk_structured_fold found images [] ⟨List.nodup_nil, by simp⟩

theorem mem_keys_structuredClassMap (images : List UnifiedImage) (found : String → Bool)
    (j : ℕ) :
    (j ∈ (structuredClassMap images found).map Prod.fst) ↔
      j ∈ resolvedCategoryIds images found := by
  rw [structuredClassMap, mem_keys_structured_fold found j images []]
  simp

theorem sortedClasses_sorted (m : List (ℕ × String)) :
    ((sortedClasses m).map Prod.fst).Sorted (· ≤ ·) := by
  haveI inst1 : IsTotal (ℕ × String) (fun a b => a.1 ≤ b.1) := ⟨fun a b => le_total a.1 b.1⟩
  haveI inst2 : IsTrans (ℕ × String) (fun a b => a.1 ≤ b.1) :=
    ⟨fun _ _ _ hab hbc => le_trans hab hbc⟩
  have hs : List.Sorted (fun a b : ℕ × String => a.1 ≤ b.1) (sortedClasses m) :=
    List.sorted_insertionSort (fun a b : ℕ × String => a.1 ≤ b.1) m
  exact List.Pairwise.map Prod.fst (fun _ _ h => h) hs

theorem sortedClasses_perm (m : List (ℕ × String)) : (sortedClasses m).Perm m :=
  List.perm_insertionSort _ m

/-- Claim C4 (amended): in a yolo-structure run the class index is keyed
by the distinct category ids of the annotations of images whose files
were resolved — an id appearing only on images whose files are never
resolved produces no entry; each included id contributes exactly one
entry named "class_" + id, and emission is sorted ascending by id. -/
theorem classes_index_spec (images : List UnifiedImage) (found : String → Bool) :
    ((structuredClassMap images found).map Prod.fst).Nodup ∧
    (∀ j : ℕ, j ∈ (structuredClassMap images found).map Prod.fst ↔
      j ∈ resolvedCategoryIds images found) ∧
    (∀ p ∈ structuredClassMap images found, p.2 = "class_" ++ toString p.1) ∧
    ((sortedClasses (structuredClassMap images found)).map Prod.fst).Sorted (· ≤ ·) ∧
    (sortedClasses (structuredClassMap images found)).Perm (structuredClassMap images found) :=
  ⟨(classMapOk_structuredClassMap images found).1,
   mem_keys_structuredClassMap images found,
   (classMapOk_structuredClassMap images found).2,
   sortedClasses_sorted _,
   sortedClasses_perm _⟩

/-- Witness for the amended C4 at the concrete two-image scenario:
ids 1 (resolved) and 2 (unresolved) behave as the theorem states, and
the emitted list is sorted. -/
theorem classes_index_spec_witness :
    (1 ∈ (structuredClassMap cImgs cFound).map Prod.fst ↔
      1 ∈ resolvedCategoryIds cImgs cFound) ∧
    (2 ∈ (structuredClassMap cImgs cFound).map Prod.fst ↔
      2 ∈ resolvedCategoryIds cImgs cFound) ∧
    ((sortedClasses (structuredClassMap cImgs cFound)).map Prod.fst).Sorted (· ≤ ·) :=
  ⟨(classes_index_spec cImgs cFound).2.1 1, (classes_index_spec cImgs cFound).2.1 2,
   (classes_index_spec cImgs cFound).2.2.2.1⟩

/-- Counterexample to claim C4 as stated: category id 2 is seen in the
input (on cImg2), but cImg2's file never resolves, so the structured run
gives id 2 no class-index entry — classes.txt holds only class_1. -/
theorem classes_missing_image_counterexample :
    2 ∈ allCategoryIds cImgs ∧
    ¬ (2 ∈ (structuredClassMap cImgs cFound).map Prod.fst) ∧
    classesContent true (structuredClassMap cImgs cFound) = some "class_1\n" := by
  decide

/-- Claim C8: the spec's end-to-end example — one standard-format file
with img1.jpg (100×100, one box [10,10,20,20] of category 3) and
img2.jpg (200×200, no annotations), flat layout — writes img1.txt
containing exactly "3 0.200000 0.200000 0.200000 0.200000" with a
trailing newline, img2.txt empty, and classes.txt "class_3" with a
trailing newline.  (train_split plays no role in the flat branch.) -/
theorem end_to_end_flat_example :
    runFlat exC8 true =
      some ([("img1.txt", "3 0.200000 0.200000 0.200000 0.200000\n"), ("img2.txt", "")],
            some "class_3\n") := by
  have hparse : parse_standard_format exC8 =
      some [{ file_name := "img1.jpg", height := 100, width := 100,
              annotations := [{ bbox := [10, 10, 30, 30], category_id := 3 }] },
            { file_name := "img2.jpg", height := 200, width := 200, annotations := [] }] := by
    simp only [parse_standard_format, exC8, imageMapEntries, insertEntry, mapOpt,
      convertCocoAnn, List.foldl, List.filter, List.getElem?_cons_zero,
      List.getElem?_cons_succ]
    norm_num
  have hyolo : YoloAnnotation.from_unified
      { bbox := [10, 10, 30, 30], category_id := 3 } 100 100 =
      { class_id := 3, x_center := 1/5, y_center := 1/5, width := 1/5, height := 1/5 } := by
    simp only [ YoloAnnotation.from_unified, List.getD, YoloAnnotation.mk.injEq]
    norm_num
  have hfloor : ⌊(1/5 : ℚ) * 1000000 + 1/2⌋ = (200000 : ℤ) := by
    rw [Int.floor_eq_iff]
    norm_num
  have hf : fmt6 (1/5 : ℚ) = "0.200000" := by
    simp only [fmt6]
    rw [hfloor]
    decide
  have hts : YoloAnnotation.to_string
      { class_id := 3, x_center := 1/5, y_center := 1/5, width := 1/5, height := 1/5 } =
      "3 0.200000 0.200000 0.200000 0.200000" := by
    simp only [ YoloAnnotation.to_string, hf]
    decide
  have hlabel1 : labelContent
      { file_name := "img1.jpg", height := 100, width := 100,
        annotations := [{ bbox := [10, 10, 30, 30], category_id := 3 }] } =
      "3 0.200000 0.200000 0.200000 0.200000\n" := by
    simp only [labelContent, List.map_cons, List.map_nil, hyolo, hts]
    decide
  have hlabel2 : labelContent
      { file_name := "img2.jpg", height := 200, width := 200,
        annotations := ([] : List UnifiedAnnotation) } = "" := rfl
  rw [runFlat, hparse, Option.map_some']
  simp only [List.map_cons, List.map_nil, hlabel1, hlabel2]
  decide
